import Mathlib

/-!
Shallow embedding of the WWPTools pyRevit extension scripts
(`MultipleUnits-script.py`, `KeyPlan-script.py`, `changeparameter-script.py`)
over exact rational arithmetic.

Modelling conventions:
* Revit `XYZ` points become a record of three rationals.  The Python scripts
  compare Euclidean distances and vector lengths against tolerances
  (`DistanceTo(...) > 1e-6`, `GetLength() < 1e-9`); since `sqrt` is strictly
  monotone these comparisons are embedded as comparisons of squared
  distances against the squared tolerances, which is exact over `ℚ`.
* A Revit `Curve` is represented by its tessellation, the list of points
  that `curve.Tessellate()` yields; this is the only way the scripts ever
  look at a curve.
* Host primitives with no rational closed form or host-internal behaviour
  (`XYZ.Normalize`, `XYZ.IsZeroLength`, `math.atan2`, whether
  `CurveLoop.Append` accepts a curve after another) are abstracted into a
  `Host` record of function parameters; theorems quantify over them.
* Imperative fragments are embedded as pure functions returning the value
  plus, where a claim needs it, the list of document mutations performed.
-/

/-- Embedding of Revit `DB.XYZ`: a 3d point with rational coordinates. -/
structure XYZ where
  x : ℚ
  y : ℚ
  z : ℚ

deriving instance DecidableEq for XYZ

deriving instance Repr for XYZ

instance : Add XYZ := ⟨fun p q => ⟨p.x + q.x, p.y + q.y, p.z + q.z⟩⟩

instance : Sub XYZ := ⟨fun p q => ⟨p.x - q.x, p.y - q.y, p.z - q.z⟩⟩

/-- Squared Euclidean distance; embeds `p.DistanceTo(q)` compared against a
tolerance by squaring both sides. -/
def distSq (p q : XYZ) : ℚ :=
  (p.x - q.x) ^ 2 + (p.y - q.y) ^ 2 + (p.z - q.z) ^ 2

/-- Squared vector length; embeds `v.GetLength()` compared against a
tolerance by squaring both sides. -/
def lenSq (v : XYZ) : ℚ := v.x ^ 2 + v.y ^ 2 + v.z ^ 2

/-- Square of the point-coalescing tolerance `1e-6` used by
`curve_loop_area_xy` and `_centroid_from_loop`. -/
def tolSq : ℚ := 1 / 1000000000000

/-- Degenerate-area threshold `1e-9` of `_centroid_from_loop` (applied to the
unhalved shoelace accumulator). -/
def degenerateAreaTol : ℚ := 1 / 1000000000

/-- Square of the near-zero length threshold `1e-9` of
`rotate_view_to_door`. -/
def zeroLenTolSq : ℚ := 1 / 1000000000000000000

/-- A tessellated curve: the list of points `curve.Tessellate()` returns. -/
abbrev Curve := List XYZ

/-- One step of the point-coalescing loop shared by `curve_loop_area_xy` and
`_centroid_from_loop`: `if not pts or pt.DistanceTo(pts[-1]) > 1e-6:
pts.append(pt)`. -/
def dedupAppend (pts : List XYZ) (pt : XYZ) : List XYZ :=
  match pts.getLast? with
  | none => pts ++ [pt]
  | some lastPt => if distSq pt lastPt > tolSq then pts ++ [pt] else pts

/-- The point-collection prefix of `curve_loop_area_xy` and
`_centroid_from_loop`: tessellate every curve and coalesce consecutive
points closer than the `1e-6` tolerance. -/
def collectPts (curves : List Curve) : List XYZ :=
  curves.foldl (fun pts c => c.foldl dedupAppend pts) []

/-- The closing step `if pts[0].DistanceTo(pts[-1]) > 1e-6:
pts.append(pts[0])`. -/
def closePts (pts : List XYZ) : List XYZ :=
  match pts.head?, pts.getLast? with
  | some h, some l => if distSq h l > tolSq then pts ++ [h] else pts
  | _, _ => pts

/-- Cross term `pts[i].X * pts[i+1].Y - pts[i+1].X * pts[i].Y` of the
shoelace loops. -/
def cross2 (p q : XYZ) : ℚ := p.x * q.y - q.x * p.y

/-- Shoelace accumulator: the value of `area` after the
`for i in range(len(pts) - 1)` loop, i.e. the sum of the cross terms over
consecutive pairs. -/
def shoelaceSum : List XYZ → ℚ
  | p :: q :: rest => cross2 p q + shoelaceSum (q :: rest)
  | _ => 0

/-- Accumulator `cx` of `_centroid_from_loop` before division. -/
def cxSum : List XYZ → ℚ
  | p :: q :: rest => (p.x + q.x) * cross2 p q + cxSum (q :: rest)
  | _ => 0

/-- Accumulator `cy` of `_centroid_from_loop` before division. -/
def cySum : List XYZ → ℚ
  | p :: q :: rest => (p.y + q.y) * cross2 p q + cySum (q :: rest)
  | _ => 0

/-- Embedding of `curve_loop_area_xy` (identical in
`MultipleUnits-script.py` and `KeyPlan-script.py`): collect tessellated
points with `1e-6` coalescing, return `0.0` on fewer than 3 points, close
the loop, and return half the shoelace sum. -/
def curve_loop_area_xy (curves : List Curve) : ℚ :=
  let pts := collectPts curves
  if pts.length < 3 then 0
  else (1 / 2) * shoelaceSum (closePts pts)

/-- Embedding of `_centroid_from_loop`: same point collection and closing,
`None` on fewer than 3 coalesced points or when the unhalved shoelace
accumulator is below `1e-9` in absolute value; otherwise the shoelace
centroid with the z of the first point. -/
def _centroid_from_loop (curves : List Curve) : Option XYZ :=
  let pts := collectPts curves
  if pts.length < 3 then none
  else
    let closed := closePts pts
    let acc := shoelaceSum closed
    if |acc| < degenerateAreaTol then none
    else
      let area := acc * (1 / 2)
      let cx := cxSum closed / (6 * area)
      let cy := cySum closed / (6 * area)
      match pts.head? with
      | some h => some ⟨cx, cy, h.z⟩
      | none => none

/-- Host-application primitives that the scripts call but whose geometry or
behaviour lives inside Revit: vector normalisation (`XYZ.Normalize`), the
host's zero-length test (`XYZ.IsZeroLength`), the float `math.atan2`, and
whether `CurveLoop.Append` accepts a curve directly after another without
throwing.  Theorems quantify over this record. -/
structure Host where
  normalize : XYZ → XYZ
  isZeroLength : XYZ → Bool
  atan2 : ℚ → ℚ → ℚ
  appendOk : Curve → Curve → Bool

/-- Whether the `for curve in best_curves: loop.Append(curve)` loop of
`get_outer_boundary_loop` runs without an exception: every consecutive
append must be accepted by the host. -/
def appendChainOk (H : Host) : List Curve → Bool
  | c1 :: c2 :: rest => H.appendOk c1 c2 && appendChainOk H (c2 :: rest)
  | _ => true

/-- The scan of `get_outer_boundary_loop` over the boundary loops: keep the
first loop whose absolute `curve_loop_area_xy` strictly exceeds the best so
far, starting from `best_area = -1.0`. -/
def bestLoopScan (loops : List (List Curve)) : Option (List Curve) × ℚ :=
  loops.foldl
    (fun acc segs =>
      let a := |curve_loop_area_xy segs|
      if a > acc.2 then (some segs, a) else acc)
    (none, -1)

/-- Embedding of `get_outer_boundary_loop` (identical in both scripts).
`loops` is what `area.GetBoundarySegments` returns, each inner list the
curves of one boundary loop.  Returns `none` when there are no loops, when
the best loop is empty (Python falsiness of `best_curves`), or when the
`CurveLoop.Append` chain throws. -/
def get_outer_boundary_loop (H : Host) (loops : List (List Curve)) :
    Option (List Curve) :=
  if loops = [] then none
  else
    match (bestLoopScan loops).1 with
    | none => none
    | some bc =>
      if bc = [] then none
      else if appendChainOk H bc then some bc else none

/-- Embedding of `_rect_loop_from_bbox`: the four bounding-box edge lines at
the bbox minimum z, each curve given by its two tessellated endpoints. -/
def _rect_loop_from_bbox (bbox : Option (XYZ × XYZ)) : Option (List Curve) :=
  match bbox with
  | none => none
  | some (mn, mx) =>
    let p1 : XYZ := ⟨mn.x, mn.y, mn.z⟩
    let p2 : XYZ := ⟨mx.x, mn.y, mn.z⟩
    let p3 : XYZ := ⟨mx.x, mx.y, mn.z⟩
    let p4 : XYZ := ⟨mn.x, mx.y, mn.z⟩
    some [[p1, p2], [p2, p3], [p3, p4], [p4, p1]]

/-- Abstract area element: its boundary loops (as tessellated curves), its
bounding box in the base view, and the host's `IsPointInArea` test. -/
structure AreaM where
  boundaryLoops : List (List Curve)
  bbox : Option (XYZ × XYZ)
  containsPt : XYZ → Bool

/-- Embedding of `_area_centroid`: outer boundary loop, then
`_centroid_from_loop`. -/
def _area_centroid (H : Host) (area : AreaM) : Option XYZ :=
  match get_outer_boundary_loop H area.boundaryLoops with
  | some loop => _centroid_from_loop loop
  | none => none

/-- Outcome of the boundary/crop portion of one `main` loop iteration of
`MultipleUnits-script.py` (lines 1041-1085) for a single area. -/
inductive MUCropResult
  | areaFailed (warning : String)
  | done (cropBoundary : Option (List Curve)) (warnings : List String)

deriving instance DecidableEq for MUCropResult

/-- Embedding of the boundary/crop decision of `MultipleUnits-script.py`:
if `get_outer_boundary_loop` yields no loop the area is recorded as failed
with a warning and processing of the area stops; otherwise the loop is set
as the crop shape, and only if that host call throws is the bounding-box
rectangle tried, with a warning either way.  `setCropOk` abstracts whether
`crop_mgr.SetCropShape` accepts a given loop. -/
def mu_crop_step (H : Host) (area : AreaM) (setCropOk : List Curve → Bool) :
    MUCropResult :=
  match get_outer_boundary_loop H area.boundaryLoops with
  | none =>
    .areaFailed "Could not get a closed boundary loop from the selected area."
  | some loop =>
    if setCropOk loop then .done (some loop) []
    else
      match _rect_loop_from_bbox area.bbox with
      | some fb =>
        if setCropOk fb then
          .done (some fb)
            ["Area crop loop was discontinuous; used area bounding box instead."]
        else .done none ["Area crop loop was discontinuous; crop not set."]
      | none => .done none ["Area crop loop was discontinuous; crop not set."]

/-- Outcome of one `main` loop iteration of `KeyPlan-script.py`
(lines 386-432) for a single area: either the area is recorded as failed,
or a keyplan is made with the boundary loop actually used for the filled
region (`none` when no filled region could be created) and the warnings. -/
inductive KPResult
  | areaFailed (warning : String)
  | made (fillBoundary : Option (List Curve)) (warnings : List String)

deriving instance DecidableEq for KPResult

/-- Embedding of the per-area step of `KeyPlan-script.py`: when
`get_outer_boundary_loop` fails, the bounding-box rectangle silently
becomes the loop (the area fails only when there is no bounding box
either); the filled region is created from the loop, retrying once with
the bounding-box rectangle (and a warning) when the host rejects it.
`fillOk` abstracts whether `FilledRegion.Create` accepts a loop. -/
def kp_area_step (H : Host) (area : AreaM) (fillOk : List Curve → Bool) :
    KPResult :=
  let loop0 := get_outer_boundary_loop H area.boundaryLoops
  let fallback0 : Option (List Curve) :=
    match loop0 with
    | none => _rect_loop_from_bbox area.bbox
    | some _ => none
  match loop0, fallback0 with
  | none, none => .areaFailed "Could not create a filled region boundary."
  | none, some fb =>
    if fillOk fb then .made (some fb) []
    else
      -- fallback_loop is already the bbox rectangle; the script retries it.
      if fillOk fb then
        .made (some fb) ["Filled region loop was discontinuous; used area bounding box."]
      else .made none ["Filled region could not be created."]
  | some loop, _ =>
    if fillOk loop then .made (some loop) []
    else
      match _rect_loop_from_bbox area.bbox with
      | some fb =>
        if fillOk fb then
          .made (some fb) ["Filled region loop was discontinuous; used area bounding box."]
        else .made none ["Filled region could not be created."]
      | none => .made none ["Filled region could not be created."]

/-- Basis vectors `DB.XYZ.BasisY` and `DB.XYZ.BasisZ`. -/
def basisY : XYZ := ⟨0, 1, 0⟩

/-- Basis vector `DB.XYZ.BasisZ`. -/
def basisZ : XYZ := ⟨0, 0, 1⟩

/-- Vector cross product of Revit `XYZ.CrossProduct`. -/
def XYZ.crossProduct (a b : XYZ) : XYZ :=
  ⟨a.y * b.z - a.z * b.y, a.z * b.x - a.x * b.z, a.x * b.y - a.y * b.x⟩

/-- Vector dot product of Revit `XYZ.DotProduct`. -/
def XYZ.dotProduct (a b : XYZ) : ℚ := a.x * b.x + a.y * b.y + a.z * b.z

/-- Document mutations that `rotate_view_to_door` can perform. -/
inductive Mutation
  | setCropBoxVisible
  | rotateElement (elemId : Int) (angle : ℚ)
  | setRotationParam (newValue : ℚ)

deriving instance DecidableEq for Mutation

/-- View-side state that `rotate_view_to_door` inspects: the crop element
found in the view (by name match), and the view rotation parameter as
`(isReadOnly, currentValue)` when available. -/
structure RotateEnv where
  cropElemId : Option Int
  angleParam : Option (Bool × ℚ)

/-- Embedding of `rotate_view_to_door`.  The XY-projected facing vector is
length-tested against `1e-9` (squared comparison); the rotation angle is
`atan2(yAxis x vec . z, yAxis . vec)` of the normalised vector, via the
abstract host `atan2`; the success messages elide the host's numeric
formatting of the angle.  The returned list is the sequence of document
mutations performed. -/
def rotate_view_to_door (H : Host) (env : RotateEnv) (facing : XYZ) :
    Bool × String × List Mutation :=
  let vec : XYZ := ⟨facing.x, facing.y, 0⟩
  if lenSq vec < zeroLenTolSq then (false, "Door facing vector is zero.", [])
  else
    let vecN := H.normalize vec
    let angle := H.atan2 ((basisY.crossProduct vecN).dotProduct basisZ) (basisY.dotProduct vecN)
    if |angle| < degenerateAreaTol then
      (false, "Computed rotation angle is near zero.", [])
    else
      match env.cropElemId with
      | some cid =>
        (true, "Rotated crop element " ++ toString cid ++ ".",
          [.setCropBoxVisible, .rotateElement cid angle])
      | none =>
        match env.angleParam with
        | some (readOnly, current) =>
          if readOnly then
            (false, "View rotation parameter is read-only and no crop element found.",
              [.setCropBoxVisible])
          else
            (true, "Rotated view parameter.",
              [.setCropBoxVisible, .setRotationParam (current + angle)])
        | none =>
          (false,
            "No crop element found and view rotation parameter is unavailable or read-only.",
            [.setCropBoxVisible])

/-- Embedding of `_clamp_viewport_center`: given the viewport box outline
(`none` when the host could not provide one), the target centre and the
titleblock bounds, return the centre passed to `SetBoxCenter`. -/
def _clamp_viewport_center (outline : Option (XYZ × XYZ))
    (target bmin bmax : XYZ) : XYZ :=
  match outline with
  | none => ⟨target.x, target.y, 0⟩
  | some (omin, omax) =>
    let halfW := (omax.x - omin.x) / 2
    let halfH := (omax.y - omin.y) / 2
    let availableW := bmax.x - bmin.x
    let availableH := bmax.y - bmin.y
    let cx :=
      if availableW < 2 * halfW then (bmin.x + bmax.x) / 2
      else max (bmin.x + halfW) (min target.x (bmax.x - halfW))
    let cy :=
      if availableH < 2 * halfH then (bmin.y + bmax.y) / 2
      else max (bmin.y + halfH) (min target.y (bmax.y - halfH))
    ⟨cx, cy, 0⟩

/-- Candidate view names of `unique_view_name`: `"BASE (i)"`. -/
def viewNameCandidate (base : String) (i : Nat) : String :=
  base ++ " (" ++ Nat.repr i ++ ")"

/-- Candidate sheet numbers of `unique_sheet_number`: `"BASE-copy"` for
index 1 and `"BASE-copyI"` for later indices. -/
def sheetNumberCandidate (base : String) (i : Nat) : String :=
  base ++ "-copy" ++ (if i = 1 then "" else Nat.repr i)

/-- The unbounded `while True` search of both unique-name generators,
embedded with explicit fuel: try `cand i`, `cand (i+1)`, ... returning the
first candidate outside `existing`.  `existing.length + 1` fuel always
suffices because the candidates are pairwise distinct. -/
def searchUnique (existing : List String) (cand : Nat → String) :
    Nat → Nat → String
  | 0, i => cand i
  | fuel + 1, i =>
    if cand i ∈ existing then searchUnique existing cand fuel (i + 1) else cand i

/-- Embedding of `unique_view_name`; `existing` is the set of view names in
the document at call time. -/
def unique_view_name (existing : List String) (base_name : String) : String :=
  if base_name ∈ existing then
    searchUnique existing (viewNameCandidate base_name) (existing.length + 1) 1
  else base_name

/-- Embedding of `unique_sheet_number`; `existing` is the set of non-empty
sheet numbers in the document at call time (the source filters falsy
numbers out of the set).  A falsy (empty) base returns `""` before the
document is consulted. -/
def unique_sheet_number (existing : List String) (base_number : String) : String :=
  if base_number = "" then ""
  else if base_number ∈ existing then
    searchUnique existing (sheetNumberCandidate base_number) (existing.length + 1) 1
  else base_number

/-- Location of a door element: a `LocationPoint`, or a `LocationCurve`
represented by its two endpoints and its midpoint (`Evaluate(0.5, True)`). -/
inductive DoorLoc
  | pt (p : XYZ)
  | curve (p0 p1 mid : XYZ)

deriving instance DecidableEq for DoorLoc

/-- Abstract door element: element id, the strings `_door_name_matches`
inspects (door name, the `SYMBOL_NAME_PARAM` string, the symbol's name and
family name when a symbol exists), its location and facing orientation. -/
structure Door where
  id : Int
  name : String
  symbolNameParam : String
  symbol : Option (String × String)
  loc : Option DoorLoc
  facing : XYZ

/-- Python `str.lower`, embedded structurally over the character list. -/
def pyLower (s : String) : String := ⟨s.data.map Char.toLower⟩

/-- Whether the second character list is a prefix of the first. -/
def leadsWith : List Char → List Char → Bool
  | _, [] => true
  | [], _ :: _ => false
  | c :: cs, p :: ps => c == p && leadsWith cs ps

/-- Whether the second character list occurs contiguously in the first. -/
def hasSub : List Char → List Char → Bool
  | [], pat => pat.isEmpty
  | c :: cs, pat => leadsWith (c :: cs) pat || hasSub cs pat

/-- Python `pattern in s` on strings: contiguous substring test. -/
def strContainsSub (s pattern : String) : Bool := hasSub s.data pattern.data

/-- Embedding of `_door_name_matches`: join the non-empty name parts with
spaces, lower-case, and test for the substring `"entry"`. -/
def _door_name_matches (d : Door) : Bool :=
  let parts : List String :=
    [d.name, d.symbolNameParam] ++
      (match d.symbol with
       | some (symName, famName) => [symName, famName]
       | none => [])
  let joined := pyLower (String.intercalate " " (parts.filter (fun p => p ≠ "")))
  strContainsSub joined "entry"

/-- Embedding of `_door_location_point`: the location point, or the curve
midpoint for curve-located doors. -/
def _door_location_point (d : Door) : Option XYZ :=
  match d.loc with
  | some (.pt p) => some p
  | some (.curve _ _ mid) => some mid
  | none => none

/-- Embedding of `_door_points_for_check`: the base location sample points,
then (when the facing vector is not zero-length) the `+offset` copies of
those, then the `-offset` copies of everything accumulated so far — the
second `extend` in the source iterates over the already-extended list. -/
def _door_points_for_check (H : Host) (d : Door) : List XYZ :=
  let points : List XYZ :=
    match d.loc with
    | some (.pt p) => [p]
    | some (.curve p0 p1 mid) => [p0, p1, mid]
    | none => []
  if H.isZeroLength d.facing then points
  else
    let offset := H.normalize d.facing
    let extended := points ++ points.map (fun pt => pt + offset)
    extended ++ extended.map (fun pt => pt - offset)

/-- Sort key of the fallback search in `find_entry_door_in_area`:
squared distance of the door location point to the centroid, `none`
standing for `float("inf")` (no location point).  Comparing squared
distances orders exactly as comparing the float distances. -/
def doorKey (c : XYZ) (d : Door) : Option ℚ :=
  (_door_location_point d).map (fun p => distSq p c)

/-- The ordering the fallback sort uses on door keys (`none` = infinity). -/
def doorKeyLe (c : XYZ) (d1 d2 : Door) : Bool :=
  match doorKey c d1, doorKey c d2 with
  | some a, some b => a ≤ b
  | some _, none => true
  | none, some _ => false
  | none, none => true

/-- The `matches` list of `find_entry_door_in_area`: name-matching doors
with a sample point inside the area. -/
def entry_matches_in_area (H : Host) (a : AreaM) (doors : List Door) : List Door :=
  doors.filter
    (fun d => _door_name_matches d && (_door_points_for_check H d).any a.containsPt)

/-- The `candidates` list of the fallback branch: all name-matching doors. -/
def entry_candidates (doors : List Door) : List Door :=
  doors.filter _door_name_matches

/-- Embedding of `find_entry_door_in_area`.  `doors` is the door collection
of the view; doors whose name matches and that have a sample point inside
the area are preferred (smallest element id, via the stable sort on ids);
otherwise the name-matching doors are sorted by distance of their location
point to the area centroid (stable sort, missing location points last) and
the first is returned. -/
def find_entry_door_in_area (H : Host) (area : Option AreaM)
    (doors : List Door) : Option Door :=
  match area with
  | none => none
  | some a =>
    if (entry_matches_in_area H a doors).isEmpty then
      match _area_centroid H a with
      | some centroid =>
        if (entry_candidates doors).isEmpty then none
        else ((entry_candidates doors).mergeSort (doorKeyLe centroid)).head?
      | none => none
    else ((entry_matches_in_area H a doors).mergeSort
      (fun d1 d2 => d1.id ≤ d2.id)).head?

/-- Document state inspected by the precondition prefix of the two `main`
functions: whether the active view is a plan view, and the collected view
templates, filled region types and titleblock types. -/
structure DocGateState where
  activeViewIsPlan : Bool
  templates : List String
  fillTypes : List String
  titleblocks : List String

/-- Result of the precondition prefix of a `main` function: a blocking
alert followed by `return` (before any transaction is opened and before the
dialog loop), or reaching the dialog loop.  The document transaction in
both scripts occurs only after `proceed`. -/
inductive MainStart
  | aborted (alert : String)
  | proceed

deriving instance DecidableEq for MainStart

/-- Embedding of the precondition prefix of `main` in
`MultipleUnits-script.py` (lines 854-890): plan-view check, then empty
checks for templates, filled region types and titleblocks, in source
order, each aborting with its alert. -/
def marketingMainStart (d : DocGateState) : MainStart :=
  if ¬ d.activeViewIsPlan then .aborted "Active view must be a plan view."
  else if d.templates.isEmpty then
    .aborted "No view templates found for this view type."
  else if d.fillTypes.isEmpty then .aborted "No filled region types found."
  else if d.titleblocks.isEmpty then .aborted "No titleblock types found."
  else .proceed

/-- Embedding of the precondition prefix of `main` in `KeyPlan-script.py`
(lines 293-317): plan-view check, then empty checks for templates and
filled region types (no titleblock check in this script). -/
def keyplanMainStart (d : DocGateState) : MainStart :=
  if ¬ d.activeViewIsPlan then .aborted "Active view must be a plan view."
  else if d.templates.isEmpty then
    .aborted "No view templates found for this view type."
  else if d.fillTypes.isEmpty then .aborted "No filled region types found."
  else .proceed

/-- Parameter of an element as the copy utility sees it: storage type
(string or not), the `AsString` or `AsValueString` results (`none` models a
Python `None` return) and writability. -/
structure ParamM where
  storageIsString : Bool
  asString : Option String
  asValueString : Option String
  readOnly : Bool

/-- Abstract element for the copy utility: id and `LookupParameter`. -/
structure ElemM where
  id : Int
  lookup : String → Option ParamM

/-- Python `str(x)` applied to an optional string: `None` prints as
`"None"`. -/
def pyStr : Option String → String
  | none => "None"
  | some s => s

/-- Embedding of `get_parameter_value` of `changeparameter-script.py`:
`str(AsString())` for string storage, `str(AsValueString())` otherwise,
`None` when the parameter is missing. -/
def get_parameter_value (e : ElemM) (name : String) : Option String :=
  match e.lookup name with
  | none => none
  | some p => if p.storageIsString then some (pyStr p.asString) else some (pyStr p.asValueString)

/-- Embedding of `set_parameter_value`: fails when the parameter is
missing or read-only; `param.Set(value)` with a string succeeds exactly on
writable string-storage parameters (a host exception on other storage
types is caught and reported as failure). -/
def set_parameter_value (e : ElemM) (name : String) : Bool :=
  match e.lookup name with
  | none => false
  | some p => if p.readOnly then false else p.storageIsString

/-- Embedding of the per-element body of `main` in
`changeparameter-script.py` (lines 151-171): read the source parameter,
apply find/replace when `find_text` is truthy (non-empty), and write the
target parameter; returns the value written, `none` when nothing was
written. -/
def copy_transform_step (e : ElemM) (source_param target_param find_text replace_text : String) :
    Option String :=
  match get_parameter_value e source_param with
  | none => none
  | some source_value =>
    let target_value :=
      if find_text = "" then source_value
      else source_value.replace find_text replace_text
    if set_parameter_value e target_param then some target_value else none

/-- Numeric value of a decimal digit character. -/
def digitVal (c : Char) : Nat := c.toNat - 48

/-- Value of a decimal digit string (most significant digit first). -/
def listVal : List Char → Nat
  | [] => 0
  | c :: cs => digitVal c * 10 ^ cs.length + listVal cs

/-- Concrete host instantiation used by witnesses. -/
def trivialHost : Host :=
  ⟨fun v => v, fun _ => false, fun _ _ => 0, fun _ _ => true⟩

/-- Concrete element used by the C9 witness: a readable string source
parameter `"View Name"` and a writable string target `"Title on Sheet"`. -/
def sampleElem : ElemM :=
  ⟨7, fun n =>
    if n = "View Name" then some ⟨true, some "Unit 101", none, true⟩
    else if n = "Title on Sheet" then some ⟨true, none, none, false⟩
    else none⟩

/-- Named step function of the `bestLoopScan` fold. -/
def bestLoopStep (acc : Option (List Curve) × ℚ) (segs : List Curve) :
    Option (List Curve) × ℚ :=
  if |curve_loop_area_xy segs| > acc.2 then (some segs, |curve_loop_area_xy segs|) else acc

/-- Host whose `CurveLoop.Append` always throws. -/
def noAppendHost : Host := ⟨fun v => v, fun _ => false, fun _ _ => 0, fun _ _ => false⟩

/-- Concrete area whose single boundary loop has two discontinuous curves,
so `CurveLoop.Append` fails on it; the area has a bounding box. -/
def brokenArea : AreaM :=
  ⟨[[[⟨0, 0, 0⟩, ⟨1, 0, 0⟩], [⟨5, 5, 0⟩, ⟨6, 5, 0⟩]]],
    some (⟨0, 0, 0⟩, ⟨6, 5, 0⟩), fun _ => false⟩

/-- Two points are separated beyond the coalescing tolerance. -/
def farApart (p q : XYZ) : Prop := distSq p q > tolSq

/-- First vertex of the witness square for C4. -/
def sqHead : List XYZ := [⟨0, 0, 0⟩]

/-- Remaining vertices of the witness square for C4. -/
def sqTail : List XYZ := [⟨4, 0, 0⟩, ⟨4, 4, 0⟩, ⟨0, 4, 0⟩]

/-- Entry door far from the witness area's centroid. -/
def entryDoorA : Door := ⟨10, "Entry Door A", "", none, some (.pt ⟨10, 0, 0⟩), ⟨1, 0, 0⟩⟩

/-- Entry door near the witness area's centroid. -/
def entryDoorB : Door := ⟨11, "Entry Door B", "", none, some (.pt ⟨3, 2, 0⟩), ⟨1, 0, 0⟩⟩

/-- Witness area: a 4x4 square whose host point-membership test rejects
every sample point, forcing the centroid fallback. -/
def squareArea : AreaM :=
  ⟨[[[⟨0, 0, 0⟩, ⟨4, 0, 0⟩, ⟨4, 4, 0⟩, ⟨0, 4, 0⟩]]], some (⟨0, 0, 0⟩, ⟨4, 4, 0⟩),
    fun _ => false⟩

/-- Bounding-box rectangle loop of `brokenArea`, as `_rect_loop_from_bbox`
builds it. -/
def rectLoop6x5 : List Curve :=
  [[⟨0, 0, 0⟩, ⟨6, 0, 0⟩], [⟨6, 0, 0⟩, ⟨6, 5, 0⟩], [⟨6, 5, 0⟩, ⟨0, 5, 0⟩],
    [⟨0, 5, 0⟩, ⟨0, 0, 0⟩]]


theorem digitVal_digitChar (d : Nat) (hd : d < 10) :
    digitVal (Nat.digitChar d) = d := by
  interval_cases d <;> rfl

theorem listVal_toDigitsCore :
    ∀ (fuel n : Nat) (acc : List Char), n < fuel →
      listVal (Nat.toDigitsCore 10 fuel n acc) = n * 10 ^ acc.length + listVal acc := by
  intro fuel
  induction fuel with
  | zero => intro n acc h; omega
  | succ fuel ih =>
    intro n acc h
    rw [Nat.toDigitsCore]
    by_cases hdiv : n / 10 = 0
    · have hn : n < 10 := by omega
      simp only [hdiv, if_true, eq_self_iff_true]
      rw [listVal]
      rw [digitVal_digitChar (n % 10) (Nat.mod_lt n (by norm_num))]
      have : n % 10 = n := Nat.mod_eq_of_lt hn
      rw [this]
    · simp only [hdiv, if_false]
      have hlt : n / 10 < fuel := by
        have h1 : 0 < n := by omega
        have := Nat.div_lt_self h1 (by norm_num : (1:Nat) < 10)
        omega
      rw [ih (n / 10) (Nat.digitChar (n % 10) :: acc) hlt]
      rw [listVal]
      rw [digitVal_digitChar (n % 10) (Nat.mod_lt n (by omega))]
      simp only [List.length_cons]
      have hmod : 10 * (n / 10) + n % 10 = n := Nat.div_add_mod n 10
      calc n / 10 * 10 ^ (acc.length + 1) + (n % 10 * 10 ^ acc.length + listVal acc)
          = (10 * (n / 10) + n % 10) * 10 ^ acc.length + listVal acc := by ring
        _ = n * 10 ^ acc.length + listVal acc := by rw [hmod]

theorem listVal_repr (n : Nat) : listVal (Nat.repr n).data = n := by
  show listVal (List.asString (Nat.toDigits 10 n)).data = n
  have hdata : (List.asString (Nat.toDigits 10 n)).data = Nat.toDigits 10 n := rfl
  rw [hdata]
  show listVal (Nat.toDigitsCore 10 (n + 1) n []) = n
  rw [listVal_toDigitsCore (n + 1) n [] (Nat.lt_succ_self n)]
  simp [listVal]

theorem nat_repr_injective (a b : Nat) (h : Nat.repr a = Nat.repr b) : a = b := by
  have := congrArg (fun s => listVal s.data) h
  simpa [listVal_repr] using this

theorem viewNameCandidate_inj (base : String) (i j : Nat)
    (h : viewNameCandidate base i = viewNameCandidate base j) : i = j := by
  have hd : base.data ++ (" (".data ++ ((Nat.repr i).data ++ ")".data)) =
      base.data ++ (" (".data ++ ((Nat.repr j).data ++ ")".data)) := by
    have hc := congrArg String.data h
    simpa [viewNameCandidate, String.data_append, List.append_assoc] using hc
  have h1 := List.append_cancel_left hd
  have h2 := List.append_cancel_left h1
  have h3 := List.append_cancel_right h2
  have h4 := congrArg listVal h3
  simpa [listVal_repr] using h4

theorem repr_data_nonempty (n : Nat) (hn : 1 ≤ n) : (Nat.repr n).data ≠ [] := by
  intro hnil
  have hv := listVal_repr n
  rw [hnil] at hv
  simp [listVal] at hv
  omega

theorem sheetNumberCandidate_inj (base : String) (i j : Nat) (hi : 1 ≤ i) (hj : 1 ≤ j)
    (h : sheetNumberCandidate base i = sheetNumberCandidate base j) : i = j := by
  by_cases hi1 : i = 1 <;> by_cases hj1 : j = 1
  · exact hi1.trans hj1.symm
  · exfalso
    have hd : (base.data ++ "-copy".data) ++ ([] : List Char) =
        (base.data ++ "-copy".data) ++ (Nat.repr j).data := by
      have hc := congrArg String.data h
      simpa [sheetNumberCandidate, hi1, hj1, String.data_append, List.append_assoc] using hc
    exact repr_data_nonempty j hj (List.append_cancel_left hd).symm
  · exfalso
    have hd : (base.data ++ "-copy".data) ++ ([] : List Char) =
        (base.data ++ "-copy".data) ++ (Nat.repr i).data := by
      have hc := congrArg String.data h.symm
      simpa [sheetNumberCandidate, hi1, hj1, String.data_append, List.append_assoc] using hc
    exact repr_data_nonempty i hi (List.append_cancel_left hd).symm
  · have hd : (base.data ++ "-copy".data) ++ (Nat.repr i).data =
        (base.data ++ "-copy".data) ++ (Nat.repr j).data := by
      have hc := congrArg String.data h
      simpa [sheetNumberCandidate, hi1, hj1, String.data_append, List.append_assoc] using hc
    have h3 := List.append_cancel_left hd
    have h4 := congrArg listVal h3
    simpa [listVal_repr] using h4

theorem searchUnique_spec (existing : List String) (cand : Nat → String) :
    ∀ (fuel start : Nat), (∃ j, start ≤ j ∧ j < start + fuel ∧ cand j ∉ existing) →
    ∃ k, start ≤ k ∧ searchUnique existing cand fuel start = cand k ∧
      cand k ∉ existing ∧ ∀ j, start ≤ j → j < k → cand j ∈ existing := by
  intro fuel
  induction fuel with
  | zero =>
    intro start hex
    obtain ⟨j, hj1, hj2, _⟩ := hex
    omega
  | succ fuel ih =>
    intro start hex
    by_cases hc : cand start ∈ existing
    · obtain ⟨j, hj1, hj2, hj3⟩ := hex
      have hj1a : start + 1 ≤ j := by
        rcases Nat.eq_or_lt_of_le hj1 with rfl | hlt
        · exact absurd hc hj3
        · omega
      obtain ⟨k, hk1, hk2, hk3, hk4⟩ := ih (start + 1) ⟨j, hj1a, by omega, hj3⟩
      refine ⟨k, by omega, ?_, hk3, ?_⟩
      · rw [searchUnique, if_pos hc]
        exact hk2
      · intro j' hj'1 hj'2
        rcases Nat.eq_or_lt_of_le hj'1 with rfl | hlt
        · exact hc
        · exact hk4 j' (by omega) hj'2
    · exact ⟨start, le_refl start, by rw [searchUnique, if_neg hc], hc,
        fun j h1 h2 => absurd (lt_of_le_of_lt h1 h2) (lt_irrefl start)⟩

theorem fresh_candidate_exists (existing : List String) (cand : Nat → String)
    (hinj : ∀ i j, 1 ≤ i → 1 ≤ j → cand i = cand j → i = j) :
    ∃ j, 1 ≤ j ∧ j < 1 + (existing.length + 1) ∧ cand j ∉ existing := by
  by_contra hcon
  push_neg at hcon
  have hsub : (Finset.Icc 1 (existing.length + 1)).image cand ⊆ existing.toFinset := by
    intro s hs
    simp only [Finset.mem_image, Finset.mem_Icc] at hs
    obtain ⟨j, ⟨hj1, hj2⟩, rfl⟩ := hs
    rw [List.mem_toFinset]
    exact hcon j hj1 (by omega)
  have hinj2 : Set.InjOn cand ↑(Finset.Icc 1 (existing.length + 1)) := by
    intro a ha b hb hab
    simp only [Finset.coe_Icc, Set.mem_Icc] at ha hb
    exact hinj a b ha.1 hb.1 hab
  have h1 := Finset.card_le_card hsub
  rw [Finset.card_image_of_injOn hinj2] at h1
  have h2 : (Finset.Icc 1 (existing.length + 1)).card = existing.length + 1 := by
    rw [Nat.card_Icc]
    omega
  have h3 := List.toFinset_card_le existing
  omega

/-- C1: for every fixed set of existing view names (resp. non-empty sheet
numbers) and every base name, `unique_view_name` and `unique_sheet_number`
(being pure functions of those inputs, hence deterministic) never return a
string already in the existing set, and any renamed result is the base
suffixed with a counter (`"BASE (k)"`, resp. the `"-copy"`/`"-copyK"`
scheme). -/
theorem C1_unique_name_generators (existingViews existingSheets : List String)
    (base : String) (hns : "" ∉ existingSheets) :
    unique_view_name existingViews base ∉ existingViews ∧
    (unique_view_name existingViews base = base ∨
      ∃ k, 1 ≤ k ∧ unique_view_name existingViews base = viewNameCandidate base k) ∧
    unique_sheet_number existingSheets base ∉ existingSheets ∧
    (unique_sheet_number existingSheets base = "" ∨
      unique_sheet_number existingSheets base = base ∨
      ∃ k, 1 ≤ k ∧ unique_sheet_number existingSheets base = sheetNumberCandidate base k) := by
  have hview : unique_view_name existingViews base ∉ existingViews ∧
      (unique_view_name existingViews base = base ∨
        ∃ k, 1 ≤ k ∧ unique_view_name existingViews base = viewNameCandidate base k) := by
    unfold unique_view_name
    by_cases hb : base ∈ existingViews
    · rw [if_pos hb]
      obtain ⟨j, hj1, hj2, hj3⟩ := fresh_candidate_exists existingViews
        (viewNameCandidate base) (fun i j _ _ h => viewNameCandidate_inj base i j h)
      obtain ⟨k, hk1, hk2, hk3, _⟩ := searchUnique_spec existingViews
        (viewNameCandidate base) (existingViews.length + 1) 1 ⟨j, hj1, hj2, hj3⟩
      rw [hk2]
      exact ⟨hk3, Or.inr ⟨k, hk1, rfl⟩⟩
    · rw [if_neg hb]
      exact ⟨hb, Or.inl rfl⟩
  have hsheet : unique_sheet_number existingSheets base ∉ existingSheets ∧
      (unique_sheet_number existingSheets base = "" ∨
        unique_sheet_number existingSheets base = base ∨
        ∃ k, 1 ≤ k ∧ unique_sheet_number existingSheets base = sheetNumberCandidate base k) := by
    unfold unique_sheet_number
    by_cases h0 : base = ""
    · rw [if_pos h0]
      exact ⟨hns, Or.inl rfl⟩
    · rw [if_neg h0]
      by_cases hb : base ∈ existingSheets
      · rw [if_pos hb]
        obtain ⟨j, hj1, hj2, hj3⟩ := fresh_candidate_exists existingSheets
          (sheetNumberCandidate base)
          (fun i j hi hj h => sheetNumberCandidate_inj base i j hi hj h)
        obtain ⟨k, hk1, hk2, hk3, _⟩ := searchUnique_spec existingSheets
          (sheetNumberCandidate base) (existingSheets.length + 1) 1 ⟨j, hj1, hj2, hj3⟩
        rw [hk2]
        exact ⟨hk3, Or.inr (Or.inr ⟨k, hk1, rfl⟩)⟩
      · rw [if_neg hb]
        exact ⟨hb, Or.inr (Or.inl rfl)⟩
  exact ⟨hview.1, hview.2, hsheet.1, hsheet.2⟩

/-- Witness for C1 at a concrete document state. -/
theorem C1_unique_name_generators_witness :
    ("" ∉ (["S"] : List String)) ∧
    (unique_view_name ["A", "A (1)"] "A" ∉ (["A", "A (1)"] : List String) ∧
      (unique_view_name ["A", "A (1)"] "A" = "A" ∨
        ∃ k, 1 ≤ k ∧ unique_view_name ["A", "A (1)"] "A" = viewNameCandidate "A" k) ∧
      unique_sheet_number ["S"] "A" ∉ (["S"] : List String) ∧
      (unique_sheet_number ["S"] "A" = "" ∨ unique_sheet_number ["S"] "A" = "A" ∨
        ∃ k, 1 ≤ k ∧ unique_sheet_number ["S"] "A" = sheetNumberCandidate "A" k)) :=
  ⟨by decide, C1_unique_name_generators ["A", "A (1)"] ["S"] "A" (by decide)⟩

/-- C10: `unique_sheet_number` returns `""` for the falsy base (for every
existing set, i.e. without consulting it); the candidate sequence for a
clashing base `B` is `"B-copy"`, `"B-copy2"`, `"B-copy3"`, ... and the
first candidate outside the existing set is returned. -/
theorem C10_unique_sheet_number_behaviour :
    (∀ existing : List String, unique_sheet_number existing "" = "") ∧
    (∀ base : String, sheetNumberCandidate base 1 = base ++ "-copy") ∧
    (∀ (base : String) (k : Nat), k ≠ 1 →
      sheetNumberCandidate base k = base ++ "-copy" ++ Nat.repr k) ∧
    (∀ (existing : List String) (base : String), base ≠ "" → base ∈ existing →
      ∃ k, 1 ≤ k ∧ unique_sheet_number existing base = sheetNumberCandidate base k ∧
        sheetNumberCandidate base k ∉ existing ∧
        ∀ j, 1 ≤ j → j < k → sheetNumberCandidate base j ∈ existing) := by
  refine ⟨fun existing => by rw [unique_sheet_number, if_pos rfl], ?_, ?_, ?_⟩
  · intro base
    show base ++ "-copy" ++ (if 1 = 1 then "" else Nat.repr 1) = base ++ "-copy"
    rw [if_pos rfl]
    exact String.append_empty _
  · intro base k hk
    show base ++ "-copy" ++ (if k = 1 then "" else Nat.repr k) = base ++ "-copy" ++ Nat.repr k
    rw [if_neg hk]
  · intro existing base h0 hb
    unfold unique_sheet_number
    rw [if_neg h0, if_pos hb]
    obtain ⟨j, hj1, hj2, hj3⟩ := fresh_candidate_exists existing
      (sheetNumberCandidate base)
      (fun i j hi hj h => sheetNumberCandidate_inj base i j hi hj h)
    obtain ⟨k, hk1, hk2, hk3, hk4⟩ := searchUnique_spec existing
      (sheetNumberCandidate base) (existing.length + 1) 1 ⟨j, hj1, hj2, hj3⟩
    exact ⟨k, hk1, hk2, hk3, hk4⟩

/-- Witness for C10 at a concrete document state. -/
theorem C10_unique_sheet_number_behaviour_witness :
    unique_sheet_number ["x"] "" = "" ∧
    (("S" : String) ≠ "" ∧ "S" ∈ (["S", "S-copy"] : List String)) ∧
    ∃ k, 1 ≤ k ∧ unique_sheet_number ["S", "S-copy"] "S" = sheetNumberCandidate "S" k ∧
      sheetNumberCandidate "S" k ∉ (["S", "S-copy"] : List String) ∧
      ∀ j, 1 ≤ j → j < k → sheetNumberCandidate "S" j ∈ (["S", "S-copy"] : List String) :=
  ⟨C10_unique_sheet_number_behaviour.1 ["x"], ⟨by decide, by decide⟩,
    C10_unique_sheet_number_behaviour.2.2.2 ["S", "S-copy"] "S" (by decide) (by decide)⟩

/-- C3: `_centroid_from_loop` returns `None` for every degenerate loop:
fewer than 3 points after coalescing at the `1e-6` tolerance, or a
shoelace accumulator below the `1e-9` degenerate-area threshold in
absolute value. -/
theorem C3_centroid_degenerate (curves : List Curve)
    (h : (collectPts curves).length < 3 ∨
      |shoelaceSum (closePts (collectPts curves))| < degenerateAreaTol) :
    _centroid_from_loop curves = none := by
  unfold _centroid_from_loop
  by_cases hlen : (collectPts curves).length < 3
  · simp [hlen]
  · rcases h with h | h
    · exact absurd h hlen
    · simp [hlen, h]

/-- Witness for C3 at a two-point (hence degenerate) loop. -/
theorem C3_centroid_degenerate_witness :
    ((collectPts [[⟨0, 0, 0⟩, ⟨1, 0, 0⟩]]).length < 3 ∨
      |shoelaceSum (closePts (collectPts [[⟨0, 0, 0⟩, ⟨1, 0, 0⟩]]))| < degenerateAreaTol) ∧
    _centroid_from_loop [[⟨0, 0, 0⟩, ⟨1, 0, 0⟩]] = none := by
  have hlen : (collectPts [[(⟨0, 0, 0⟩ : XYZ), ⟨1, 0, 0⟩]]).length < 3 := by
    norm_num [collectPts, dedupAppend, distSq, tolSq]
  exact ⟨Or.inl hlen, C3_centroid_degenerate _ (Or.inl hlen)⟩

/-- C8: `rotate_view_to_door` returns `False` with the zero-vector reason
and performs no document mutation whenever the XY-projected facing vector
is shorter than the `1e-9` threshold. -/
theorem C8_rotate_zero_facing (H : Host) (env : RotateEnv) (facing : XYZ)
    (h : lenSq ⟨facing.x, facing.y, 0⟩ < zeroLenTolSq) :
    rotate_view_to_door H env facing = (false, "Door facing vector is zero.", []) := by
  unfold rotate_view_to_door
  simp [h]

/-- Witness for C8 at a vertically-facing door. -/
theorem C8_rotate_zero_facing_witness :
    lenSq ⟨(⟨0, 0, 5⟩ : XYZ).x, (⟨0, 0, 5⟩ : XYZ).y, 0⟩ < zeroLenTolSq ∧
    rotate_view_to_door trivialHost ⟨none, none⟩ ⟨0, 0, 5⟩ =
      (false, "Door facing vector is zero.", []) := by
  have h : lenSq ⟨(⟨0, 0, 5⟩ : XYZ).x, (⟨0, 0, 5⟩ : XYZ).y, 0⟩ < zeroLenTolSq := by
    norm_num [lenSq, zeroLenTolSq]
  exact ⟨h, C8_rotate_zero_facing trivialHost ⟨none, none⟩ ⟨0, 0, 5⟩ h⟩

/-- C6: after `_clamp_viewport_center`, the recentred viewport outline
(centre plus/minus the half sizes) lies inside the titleblock bounds in
every axis where the bounds are at least as large as the viewport, and the
centre is the bounds midpoint in any axis where it is not. -/
theorem C6_viewport_clamped (omin omax target bmin bmax : XYZ) :
    (2 * ((omax.x - omin.x) / 2) ≤ bmax.x - bmin.x →
      bmin.x ≤ (_clamp_viewport_center (some (omin, omax)) target bmin bmax).x -
          (omax.x - omin.x) / 2 ∧
        (_clamp_viewport_center (some (omin, omax)) target bmin bmax).x +
          (omax.x - omin.x) / 2 ≤ bmax.x) ∧
    (bmax.x - bmin.x < 2 * ((omax.x - omin.x) / 2) →
      (_clamp_viewport_center (some (omin, omax)) target bmin bmax).x =
        (bmin.x + bmax.x) / 2) ∧
    (2 * ((omax.y - omin.y) / 2) ≤ bmax.y - bmin.y →
      bmin.y ≤ (_clamp_viewport_center (some (omin, omax)) target bmin bmax).y -
          (omax.y - omin.y) / 2 ∧
        (_clamp_viewport_center (some (omin, omax)) target bmin bmax).y +
          (omax.y - omin.y) / 2 ≤ bmax.y) ∧
    (bmax.y - bmin.y < 2 * ((omax.y - omin.y) / 2) →
      (_clamp_viewport_center (some (omin, omax)) target bmin bmax).y =
        (bmin.y + bmax.y) / 2) := by
  unfold _clamp_viewport_center
  simp only
  refine ⟨?_, ?_, ?_, ?_⟩
  · intro h
    rw [if_neg (not_lt.mpr h)]
    constructor
    · have := le_max_left (bmin.x + (omax.x - omin.x) / 2)
        (min target.x (bmax.x - (omax.x - omin.x) / 2))
      linarith
    · have h1 : bmin.x + (omax.x - omin.x) / 2 ≤ bmax.x - (omax.x - omin.x) / 2 := by
        linarith
      have h2 := min_le_right target.x (bmax.x - (omax.x - omin.x) / 2)
      have := max_le h1 h2
      linarith
  · intro h
    rw [if_pos h]
  · intro h
    rw [if_neg (not_lt.mpr h)]
    constructor
    · have := le_max_left (bmin.y + (omax.y - omin.y) / 2)
        (min target.y (bmax.y - (omax.y - omin.y) / 2))
      linarith
    · have h1 : bmin.y + (omax.y - omin.y) / 2 ≤ bmax.y - (omax.y - omin.y) / 2 := by
        linarith
      have h2 := min_le_right target.y (bmax.y - (omax.y - omin.y) / 2)
      have := max_le h1 h2
      linarith
  · intro h
    rw [if_pos h]

/-- Witness for C6 at a concrete viewport and titleblock. -/
theorem C6_viewport_clamped_witness :
    2 * (((⟨2, 2, 0⟩ : XYZ).x - (⟨0, 0, 0⟩ : XYZ).x) / 2) ≤
        (⟨10, 10, 0⟩ : XYZ).x - (⟨0, 0, 0⟩ : XYZ).x ∧
    ((⟨0, 0, 0⟩ : XYZ).x ≤
        (_clamp_viewport_center (some (⟨0, 0, 0⟩, ⟨2, 2, 0⟩)) ⟨9, 9, 0⟩ ⟨0, 0, 0⟩ ⟨10, 10, 0⟩).x -
          ((⟨2, 2, 0⟩ : XYZ).x - (⟨0, 0, 0⟩ : XYZ).x) / 2 ∧
      (_clamp_viewport_center (some (⟨0, 0, 0⟩, ⟨2, 2, 0⟩)) ⟨9, 9, 0⟩ ⟨0, 0, 0⟩ ⟨10, 10, 0⟩).x +
          ((⟨2, 2, 0⟩ : XYZ).x - (⟨0, 0, 0⟩ : XYZ).x) / 2 ≤ (⟨10, 10, 0⟩ : XYZ).x) := by
  have h : 2 * (((⟨2, 2, 0⟩ : XYZ).x - (⟨0, 0, 0⟩ : XYZ).x) / 2) ≤
      (⟨10, 10, 0⟩ : XYZ).x - (⟨0, 0, 0⟩ : XYZ).x := by norm_num
  exact ⟨h, (C6_viewport_clamped ⟨0, 0, 0⟩ ⟨2, 2, 0⟩ ⟨9, 9, 0⟩ ⟨0, 0, 0⟩ ⟨10, 10, 0⟩).1 h⟩

/-- C7: missing view templates, filled region types, titleblocks (marketing
tool only), or a non-plan active view make `main` return with a blocking
alert at its precondition prefix; the transaction block of both scripts is
only reached on `proceed`, so the document is not modified. -/
theorem C7_precondition_gates :
    (∀ d : DocGateState,
      (d.activeViewIsPlan = false ∨ d.templates = [] ∨ d.fillTypes = [] ∨
        d.titleblocks = []) →
      ∃ msg, marketingMainStart d = .aborted msg) ∧
    (∀ d : DocGateState,
      (d.activeViewIsPlan = false ∨ d.templates = [] ∨ d.fillTypes = []) →
      ∃ msg, keyplanMainStart d = .aborted msg) := by
  constructor
  · intro d h
    have hne : marketingMainStart d ≠ .proceed := by
      intro hres
      unfold marketingMainStart at hres
      split_ifs at hres with h1 h2 h3 h4
      rcases h with h | h | h | h
      · rw [h] at h1; simp at h1
      · rw [h] at h2; simp at h2
      · rw [h] at h3; simp at h3
      · rw [h] at h4; simp at h4
    cases hres : marketingMainStart d with
    | aborted m => exact ⟨m, rfl⟩
    | proceed => exact absurd hres hne
  · intro d h
    have hne : keyplanMainStart d ≠ .proceed := by
      intro hres
      unfold keyplanMainStart at hres
      split_ifs at hres with h1 h2 h3
      rcases h with h | h | h
      · rw [h] at h1; simp at h1
      · rw [h] at h2; simp at h2
      · rw [h] at h3; simp at h3
    cases hres : keyplanMainStart d with
    | aborted m => exact ⟨m, rfl⟩
    | proceed => exact absurd hres hne

/-- Witness for C7: a document with no templates (marketing tool) and a
non-plan active view (keyplan tool). -/
theorem C7_precondition_gates_witness :
    (∃ msg, marketingMainStart ⟨true, [], ["f"], ["t"]⟩ = .aborted msg) ∧
    (∃ msg, keyplanMainStart ⟨false, ["t"], ["f"], []⟩ = .aborted msg) :=
  ⟨C7_precondition_gates.1 ⟨true, [], ["f"], ["t"]⟩ (Or.inr (Or.inl rfl)),
    C7_precondition_gates.2 ⟨false, ["t"], ["f"], []⟩ (Or.inl rfl)⟩

/-- C9: for an element whose source parameter is readable and whose target
parameter is a writable string parameter, the value written is the source
value with `find_text` occurrences replaced when `find_text` is non-empty,
and the unchanged source value when `find_text` is empty. -/
theorem C9_copy_transform (e : ElemM) (src tgt find_text replace_text : String)
    (p q : ParamM) (hs : e.lookup src = some p) (ht : e.lookup tgt = some q)
    (hq1 : q.storageIsString = true) (hq2 : q.readOnly = false) :
    (find_text = "" → copy_transform_step e src tgt find_text replace_text =
      some (if p.storageIsString then pyStr p.asString else pyStr p.asValueString)) ∧
    (find_text ≠ "" → copy_transform_step e src tgt find_text replace_text =
      some ((if p.storageIsString then pyStr p.asString
        else pyStr p.asValueString).replace find_text replace_text)) := by
  have hget : get_parameter_value e src =
      some (if p.storageIsString then pyStr p.asString else pyStr p.asValueString) := by
    unfold get_parameter_value
    rw [hs]
    by_cases hps : p.storageIsString
    · simp [hps]
    · simp [hps]
  have hset : set_parameter_value e tgt = true := by
    unfold set_parameter_value
    rw [ht]
    simp [hq1, hq2]
  constructor
  · intro hf
    unfold copy_transform_step
    rw [hget, hset]
    simp [hf]
  · intro hf
    unfold copy_transform_step
    rw [hget, hset]
    simp [hf]

/-- Witness for C9 at `sampleElem` with a non-empty find text. -/
theorem C9_copy_transform_witness :
    copy_transform_step sampleElem "View Name" "Title on Sheet" "101" "102" =
      some ((if (true : Bool) then pyStr (some "Unit 101") else pyStr none).replace
        "101" "102") :=
  (C9_copy_transform sampleElem "View Name" "Title on Sheet" "101" "102"
    ⟨true, some "Unit 101", none, true⟩ ⟨true, none, none, false⟩
    rfl rfl rfl rfl).2 (by decide)

theorem bestLoopScan_eq (loops : List (List Curve)) :
    bestLoopScan loops = loops.foldl bestLoopStep (none, -1) := rfl

theorem bestLoopScan_go (loops : List (List Curve)) :
    ∀ acc : Option (List Curve) × ℚ,
      (loops.foldl bestLoopStep acc = acc ∨
        ∃ bc ∈ loops, loops.foldl bestLoopStep acc = (some bc, |curve_loop_area_xy bc|)) ∧
      acc.2 ≤ (loops.foldl bestLoopStep acc).2 ∧
      ∀ l ∈ loops, |curve_loop_area_xy l| ≤ (loops.foldl bestLoopStep acc).2 := by
  induction loops with
  | nil =>
    intro acc
    exact ⟨Or.inl rfl, le_refl _, by simp⟩
  | cons seg rest ih =>
    intro acc
    simp only [List.foldl_cons]
    obtain ⟨ih1, ih2, ih3⟩ := ih (bestLoopStep acc seg)
    have hstep2 : acc.2 ≤ (bestLoopStep acc seg).2 := by
      unfold bestLoopStep
      split_ifs with hgt
      · exact le_of_lt hgt
      · exact le_refl _
    have hseg : |curve_loop_area_xy seg| ≤ (bestLoopStep acc seg).2 := by
      unfold bestLoopStep
      split_ifs with hgt
      · exact le_refl _
      · exact not_lt.mp hgt
    refine ⟨?_, le_trans hstep2 ih2, ?_⟩
    · by_cases hgt : |curve_loop_area_xy seg| > acc.2
      · have hstep : bestLoopStep acc seg = (some seg, |curve_loop_area_xy seg|) := by
          unfold bestLoopStep
          rw [if_pos hgt]
        rcases ih1 with h | ⟨bc, hbc, h⟩
        · exact Or.inr ⟨seg, List.mem_cons_self seg rest, by rw [h, hstep]⟩
        · exact Or.inr ⟨bc, List.mem_cons_of_mem seg hbc, h⟩
      · have hstep : bestLoopStep acc seg = acc := by
          unfold bestLoopStep
          rw [if_neg hgt]
        rcases ih1 with h | ⟨bc, hbc, h⟩
        · exact Or.inl (by rw [h, hstep])
        · exact Or.inr ⟨bc, List.mem_cons_of_mem seg hbc, h⟩
    · intro l hl
      rcases List.mem_cons.mp hl with rfl | hl
      · exact le_trans hseg ih2
      · exact ih3 l hl

theorem bestLoopScan_some (loops : List (List Curve)) (bc : List Curve)
    (h : (bestLoopScan loops).1 = some bc) :
    bc ∈ loops ∧ ∀ l ∈ loops, |curve_loop_area_xy l| ≤ |curve_loop_area_xy bc| := by
  obtain ⟨h1, _, h3⟩ := bestLoopScan_go loops (none, -1)
  rcases h1 with heq | ⟨bc2, hmem, heq⟩
  · rw [bestLoopScan_eq, heq] at h
    simp at h
  · rw [bestLoopScan_eq, heq] at h
    simp only [Option.some.injEq] at h
    subst h
    refine ⟨hmem, ?_⟩
    intro l hl
    have hle := h3 l hl
    rw [heq] at hle
    exact hle

/-- C2, as amended: `get_outer_boundary_loop` picks a boundary loop of
maximal absolute signed area; when loop construction fails,
`KeyPlan-script.py` silently substitutes the bounding-box rectangle as the
filled-region boundary, while `MultipleUnits-script.py` marks the area
failed with a user-visible warning and substitutes nothing. -/
theorem C2_outer_loop_and_fallback :
    (∀ (H : Host) (loops : List (List Curve)) (best : List Curve),
      get_outer_boundary_loop H loops = some best →
      best ∈ loops ∧ ∀ l ∈ loops, |curve_loop_area_xy l| ≤ |curve_loop_area_xy best|) ∧
    (∀ (H : Host) (area : AreaM) (setCropOk : List Curve → Bool),
      get_outer_boundary_loop H area.boundaryLoops = none →
      mu_crop_step H area setCropOk =
        .areaFailed "Could not get a closed boundary loop from the selected area.") ∧
    (∀ (H : Host) (area : AreaM) (fillOk : List Curve → Bool) (fb : List Curve),
      get_outer_boundary_loop H area.boundaryLoops = none →
      _rect_loop_from_bbox area.bbox = some fb →
      fillOk fb = true →
      kp_area_step H area fillOk = .made (some fb) []) := by
  refine ⟨?_, ?_, ?_⟩
  · intro H loops best h
    unfold get_outer_boundary_loop at h
    by_cases hnil : loops = []
    · rw [if_pos hnil] at h
      simp at h
    · rw [if_neg hnil] at h
      cases hscan : (bestLoopScan loops).1 with
      | none =>
        rw [hscan] at h
        simp at h
      | some bc0 =>
        rw [hscan] at h
        have h2 : (if bc0 = [] then none
            else if appendChainOk H bc0 = true then some bc0 else none) = some best := h
        by_cases hbc : bc0 = []
        · rw [if_pos hbc] at h2
          simp at h2
        · rw [if_neg hbc] at h2
          by_cases hchain : appendChainOk H bc0 = true
          · rw [if_pos hchain] at h2
            simp only [Option.some.injEq] at h2
            subst h2
            exact bestLoopScan_some loops _ hscan
          · rw [if_neg hchain] at h2
            simp at h2
  · intro H area setCropOk hnone
    unfold mu_crop_step
    rw [hnone]
  · intro H area fillOk fb hnone hfb hfill
    unfold kp_area_step
    rw [hnone]
    simp [hfb, hfill]

theorem brokenArea_no_loop :
    get_outer_boundary_loop noAppendHost brokenArea.boundaryLoops = none := by
  have hcond : |curve_loop_area_xy [[⟨0, 0, 0⟩, ⟨1, 0, 0⟩], [⟨5, 5, 0⟩, ⟨6, 5, 0⟩]]| >
      (-1 : ℚ) := lt_of_lt_of_le (by norm_num) (abs_nonneg _)
  unfold get_outer_boundary_loop bestLoopScan brokenArea
  simp only [List.foldl_cons, List.foldl_nil]
  rw [if_neg (by simp)]
  rw [if_pos hcond]
  simp only
  rw [if_neg (by simp)]
  rw [if_neg (by simp [appendChainOk, noAppendHost])]

/-- Counterexample to C2 as stated: at `brokenArea`, loop construction
fails inside `get_outer_boundary_loop`, and `MultipleUnits-script.py`
records the area as failed with a warning rather than substituting the
bounding-box rectangle as the boundary. -/
theorem C2_counterexample :
    mu_crop_step noAppendHost brokenArea (fun _ => true) =
      .areaFailed "Could not get a closed boundary loop from the selected area." ∧
    ∀ b w, mu_crop_step noAppendHost brokenArea (fun _ => true) ≠ .done b w := by
  constructor
  · unfold mu_crop_step
    rw [brokenArea_no_loop]
  · intro b w
    unfold mu_crop_step
    rw [brokenArea_no_loop]
    simp

/-- Witness for C2 (amended): at `brokenArea` the keyplan script silently
uses the bounding-box rectangle as the filled-region boundary, with no
warnings. -/
theorem C2_outer_loop_and_fallback_witness :
    (get_outer_boundary_loop noAppendHost brokenArea.boundaryLoops = none ∧
      _rect_loop_from_bbox brokenArea.bbox = some rectLoop6x5) ∧
    kp_area_step noAppendHost brokenArea (fun _ => true) = .made (some rectLoop6x5) [] :=
  ⟨⟨brokenArea_no_loop, rfl⟩,
    C2_outer_loop_and_fallback.2.2 noAppendHost brokenArea (fun _ => true) rectLoop6x5
      brokenArea_no_loop rfl rfl⟩

theorem distSq_comm (p q : XYZ) : distSq p q = distSq q p := by
  unfold distSq
  ring

theorem cross2_antisymm (p q : XYZ) : cross2 q p = - cross2 p q := by
  unfold cross2
  ring

theorem shoelaceSum_nil : shoelaceSum [] = 0 := rfl

theorem shoelaceSum_single (p : XYZ) : shoelaceSum [p] = 0 := rfl

theorem shoelaceSum_cons_cons (p q : XYZ) (rest : List XYZ) :
    shoelaceSum (p :: q :: rest) = cross2 p q + shoelaceSum (q :: rest) := rfl

theorem dedupAppend_far (pts : List XYZ) (a pt : XYZ) (hl : pts.getLast? = some a)
    (hfar : farApart a pt) : dedupAppend pts pt = pts ++ [pt] := by
  unfold dedupAppend
  rw [hl]
  show (if distSq pt a > tolSq then pts ++ [pt] else pts) = pts ++ [pt]
  rw [if_pos (by rw [distSq_comm]; exact hfar)]

theorem foldl_dedup_chain :
    ∀ (rest acc : List XYZ) (a : XYZ), acc.getLast? = some a →
      List.Chain' farApart (a :: rest) → rest.foldl dedupAppend acc = acc ++ rest := by
  intro rest
  induction rest with
  | nil =>
    intro acc a _ _
    simp
  | cons b rest ih =>
    intro acc a hl hch
    simp only [List.foldl_cons]
    have hab : farApart a b := (List.chain'_cons.mp hch).1
    rw [dedupAppend_far acc a b hl hab]
    have hl2 : (acc ++ [b]).getLast? = some b := by simp
    rw [ih (acc ++ [b]) b hl2 (List.chain'_cons.mp hch).2]
    simp

theorem collectPts_single (l : List XYZ) (hch : List.Chain' farApart l) :
    collectPts [l] = l := by
  cases l with
  | nil => rfl
  | cons p rest =>
    show (p :: rest).foldl dedupAppend [] = p :: rest
    simp only [List.foldl_cons]
    have h0 : dedupAppend [] p = [p] := rfl
    rw [h0]
    rw [foldl_dedup_chain rest [p] p rfl hch]
    simp

theorem closePts_far (l : List XYZ) (x y : XYZ) (hh : l.head? = some y)
    (hl : l.getLast? = some x) (hfar : farApart x y) :
    closePts l = l ++ [y] := by
  unfold closePts
  rw [hh, hl]
  show (if distSq y x > tolSq then l ++ [y] else l) = l ++ [y]
  rw [if_pos (by rw [distSq_comm]; exact hfar)]

theorem shoelaceSum_append (a b : List XYZ) (x y : XYZ)
    (ha : a.getLast? = some x) (hb : b.head? = some y) :
    shoelaceSum (a ++ b) = shoelaceSum a + cross2 x y + shoelaceSum b := by
  induction a with
  | nil => simp at ha
  | cons p a2 ih =>
    cases a2 with
    | nil =>
      have hpx : p = x := by simpa using ha
      subst hpx
      cases b with
      | nil => simp at hb
      | cons q b2 =>
        have hqy : q = y := by simpa using hb
        subst hqy
        show shoelaceSum (p :: q :: b2) = shoelaceSum [p] + cross2 p q + shoelaceSum (q :: b2)
        rw [shoelaceSum_cons_cons, shoelaceSum_single]
        ring
    | cons p2 a3 =>
      have ha2 : (p2 :: a3).getLast? = some x := by
        rw [← List.getLast?_cons_cons]
        exact ha
      have ih2 := ih ha2
      show shoelaceSum (p :: p2 :: (a3 ++ b)) =
        shoelaceSum (p :: p2 :: a3) + cross2 x y + shoelaceSum b
      rw [shoelaceSum_cons_cons, shoelaceSum_cons_cons]
      have hcons : (p2 :: a3) ++ b = p2 :: (a3 ++ b) := rfl
      rw [hcons] at ih2
      rw [ih2]
      ring

theorem shoelaceSum_reverse : ∀ l : List XYZ, shoelaceSum l.reverse = - shoelaceSum l := by
  intro l
  induction l with
  | nil => simp [shoelaceSum_nil]
  | cons p rest ih =>
    cases rest with
    | nil => simp [shoelaceSum_single]
    | cons q rest2 =>
      rw [List.reverse_cons]
      have hlast : (q :: rest2).reverse.getLast? = some q := by
        rw [List.getLast?_reverse]
        rfl
      rw [shoelaceSum_append ((q :: rest2).reverse) [p] q p hlast rfl]
      rw [ih, shoelaceSum_cons_cons, shoelaceSum_single, cross2_antisymm p q]
      ring

theorem farApart_symm (p q : XYZ) (h : farApart p q) : farApart q p := by
  unfold farApart at h ⊢
  rw [distSq_comm]
  exact h

theorem curve_loop_area_closed (l : List XYZ) (h3 : 3 ≤ l.length)
    (hch : List.Chain' farApart l) (x y : XYZ) (hl : l.getLast? = some x)
    (hh : l.head? = some y) (hcyc : farApart x y) :
    curve_loop_area_xy [l] = (1 / 2) * (shoelaceSum l + cross2 x y) := by
  show (if (collectPts [l]).length < 3 then (0 : ℚ)
    else (1 / 2) * shoelaceSum (closePts (collectPts [l]))) =
      (1 / 2) * (shoelaceSum l + cross2 x y)
  rw [collectPts_single l hch]
  rw [if_neg (by omega)]
  rw [closePts_far l x y hh hl hcyc]
  rw [shoelaceSum_append l [y] x y hl rfl]
  rw [shoelaceSum_single]
  ring

/-- C4, as amended: for every point sequence of length at least 3 whose
cyclically-consecutive points are all separated beyond the `1e-6`
coalescing tolerance, the signed area computed by `curve_loop_area_xy` is
invariant under cyclic rotation of the starting vertex and is negated by
reversing the sequence.  (Without the separation hypothesis the tolerance
coalescing breaks exact invariance; see the counterexample.) -/
theorem C4_shoelace_rotation_reversal (xs ys : List XYZ)
    (h3 : 3 ≤ (xs ++ ys).length)
    (hch : List.Chain' farApart (xs ++ ys))
    (hcyc : ∀ x ∈ (xs ++ ys).getLast?, ∀ y ∈ (xs ++ ys).head?, farApart x y) :
    curve_loop_area_xy [ys ++ xs] = curve_loop_area_xy [xs ++ ys] ∧
    curve_loop_area_xy [(xs ++ ys).reverse] = - curve_loop_area_xy [xs ++ ys] := by
  have hne : xs ++ ys ≠ [] := by
    intro hempty
    rw [hempty] at h3
    simp at h3
  have hh := List.head?_eq_head hne
  have hl := List.getLast?_eq_getLast (xs ++ ys) hne
  set y0 := (xs ++ ys).head hne with hy0
  set x0 := (xs ++ ys).getLast hne with hx0
  have hfar : farApart x0 y0 := hcyc x0 (Option.mem_def.mpr hl) y0 (Option.mem_def.mpr hh)
  have hbase : curve_loop_area_xy [xs ++ ys] =
      (1 / 2) * (shoelaceSum (xs ++ ys) + cross2 x0 y0) :=
    curve_loop_area_closed (xs ++ ys) h3 hch x0 y0 hl hh hfar
  constructor
  · by_cases hxs : xs = []
    · rw [hxs, List.nil_append, List.append_nil]
    · by_cases hys : ys = []
      · rw [hys, List.nil_append, List.append_nil]
      · obtain ⟨hchx, hchy, hjun⟩ := List.chain'_append.mp hch
        have hxh := List.head?_eq_head hxs
        have hxl := List.getLast?_eq_getLast xs hxs
        have hyh := List.head?_eq_head hys
        have hyl := List.getLast?_eq_getLast ys hys
        set xh := xs.head hxs
        set xl := xs.getLast hxs
        set yh := ys.head hys
        set yl := ys.getLast hys
        have hheadl : (xs ++ ys).head? = some xh := by
          rw [List.head?_append_of_ne_nil xs hxs]
          exact hxh
        have hlastl : (xs ++ ys).getLast? = some yl := by
          rw [List.getLast?_append_of_ne_nil xs hys]
          exact hyl
        have hy0xh : y0 = xh := by
          have := hh.symm.trans hheadl
          simpa using this
        have hx0yl : x0 = yl := by
          have := hl.symm.trans hlastl
          simpa using this
        have hjunction : farApart xl yh :=
          hjun xl (Option.mem_def.mpr hxl) yh (Option.mem_def.mpr hyh)
        have hfar2 : farApart yl xh := by
          rw [← hx0yl, ← hy0xh]
          exact hfar
        have hch2 : List.Chain' farApart (ys ++ xs) := by
          refine List.chain'_append.mpr ⟨hchy, hchx, ?_⟩
          intro a ha b hb
          rw [Option.mem_def] at ha hb
          rw [hyl] at ha
          rw [hxh] at hb
          obtain rfl : a = yl := by injection ha.symm
          obtain rfl : b = xh := by injection hb.symm
          exact hfar2
        have h3b : 3 ≤ (ys ++ xs).length := by
          rw [List.length_append] at h3 ⊢
          omega
        have hheadr : (ys ++ xs).head? = some yh := by
          rw [List.head?_append_of_ne_nil ys hys]
          exact hyh
        have hlastr : (ys ++ xs).getLast? = some xl := by
          rw [List.getLast?_append_of_ne_nil ys hxs]
          exact hxl
        have hbase2 : curve_loop_area_xy [ys ++ xs] =
            (1 / 2) * (shoelaceSum (ys ++ xs) + cross2 xl yh) :=
          curve_loop_area_closed (ys ++ xs) h3b hch2 xl yh hlastr hheadr hjunction
        have hS1 : shoelaceSum (xs ++ ys) =
            shoelaceSum xs + cross2 xl yh + shoelaceSum ys :=
          shoelaceSum_append xs ys xl yh hxl hyh
        have hS2 : shoelaceSum (ys ++ xs) =
            shoelaceSum ys + cross2 yl xh + shoelaceSum xs :=
          shoelaceSum_append ys xs yl xh hyl hxh
        rw [hbase, hbase2, hS1, hS2, hx0yl, hy0xh]
        ring
  · have hchrev : List.Chain' farApart (xs ++ ys).reverse := by
      rw [List.chain'_reverse]
      exact List.Chain'.imp (fun a b hab => farApart_symm a b hab) hch
    have h3rev : 3 ≤ (xs ++ ys).reverse.length := by
      rw [List.length_reverse]
      exact h3
    have hlrev : (xs ++ ys).reverse.getLast? = some y0 := by
      rw [List.getLast?_reverse]
      exact hh
    have hhrev : (xs ++ ys).reverse.head? = some x0 := by
      rw [List.head?_reverse]
      exact hl
    have hbaserev : curve_loop_area_xy [(xs ++ ys).reverse] =
        (1 / 2) * (shoelaceSum (xs ++ ys).reverse + cross2 y0 x0) :=
      curve_loop_area_closed (xs ++ ys).reverse h3rev hchrev y0 x0 hlrev hhrev
        (farApart_symm x0 y0 hfar)
    rw [hbaserev, hbase, shoelaceSum_reverse, cross2_antisymm x0 y0]
    ring

/-- Witness for the amended C4 at a 4x4 square split for a one-step
rotation. -/
theorem C4_shoelace_rotation_reversal_witness :
    (3 ≤ (sqHead ++ sqTail).length ∧ List.Chain' farApart (sqHead ++ sqTail)) ∧
    curve_loop_area_xy [sqTail ++ sqHead] = curve_loop_area_xy [sqHead ++ sqTail] ∧
    curve_loop_area_xy [(sqHead ++ sqTail).reverse] =
      - curve_loop_area_xy [sqHead ++ sqTail] := by
  have h3 : 3 ≤ (sqHead ++ sqTail).length := by norm_num [sqHead, sqTail]
  have hch : List.Chain' farApart (sqHead ++ sqTail) := by
    norm_num [sqHead, sqTail, List.chain'_cons, farApart, distSq, tolSq]
  have hcyc : ∀ x ∈ (sqHead ++ sqTail).getLast?, ∀ y ∈ (sqHead ++ sqTail).head?,
      farApart x y := by
    norm_num [sqHead, sqTail, farApart, distSq, tolSq]
  exact ⟨⟨h3, hch⟩, C4_shoelace_rotation_reversal sqHead sqTail h3 hch hcyc⟩

/-- Counterexample to C4 as stated, for every closed point sequence: with a
pair of vertices closer than the coalescing tolerance, rotating the
starting vertex changes which points are coalesced and the exact signed
area changes. -/
theorem C4_counterexample :
    curve_loop_area_xy
        [[⟨0, 1 / 2000000, 0⟩, ⟨1, 0, 0⟩, ⟨1, 1, 0⟩, ⟨0, 0, 0⟩]] ≠
      curve_loop_area_xy
        [[⟨0, 0, 0⟩, ⟨0, 1 / 2000000, 0⟩, ⟨1, 0, 0⟩, ⟨1, 1, 0⟩]] := by
  have h1 : curve_loop_area_xy
      [[⟨0, 0, 0⟩, ⟨0, 1 / 2000000, 0⟩, ⟨1, 0, 0⟩, ⟨1, 1, 0⟩]] = 1 / 2 := by
    norm_num [curve_loop_area_xy, collectPts, dedupAppend, closePts, shoelaceSum, cross2,
      distSq, tolSq]
  have h2 : curve_loop_area_xy
      [[⟨0, 1 / 2000000, 0⟩, ⟨1, 0, 0⟩, ⟨1, 1, 0⟩, ⟨0, 0, 0⟩]] = 1999999 / 4000000 := by
    norm_num [curve_loop_area_xy, collectPts, dedupAppend, closePts, shoelaceSum, cross2,
      distSq, tolSq]
  rw [h1, h2]
  norm_num

theorem doorKeyLe_refl (c : XYZ) (d : Door) : doorKeyLe c d d = true := by
  unfold doorKeyLe
  cases doorKey c d <;> simp

theorem doorKeyLe_total (c : XYZ) (d1 d2 : Door) :
    (doorKeyLe c d1 d2 || doorKeyLe c d2 d1) = true := by
  unfold doorKeyLe
  cases doorKey c d1 with
  | none => cases doorKey c d2 <;> simp
  | some q1 =>
    cases doorKey c d2 with
    | none => simp
    | some q2 =>
      rcases le_total q1 q2 with h | h <;> simp [h]

theorem doorKeyLe_trans (c : XYZ) (d1 d2 d3 : Door)
    (h12 : doorKeyLe c d1 d2 = true) (h23 : doorKeyLe c d2 d3 = true) :
    doorKeyLe c d1 d3 = true := by
  unfold doorKeyLe at h12 h23 ⊢
  cases h1 : doorKey c d1 <;> cases h2 : doorKey c d2 <;> cases h3 : doorKey c d3 <;>
    rw [h1, h2] at h12 <;> rw [h2, h3] at h23 <;> simp_all
  exact le_trans h12 h23

theorem mergeSort_head_min {α : Type} (le : α → α → Bool)
    (htrans : ∀ a b c, le a b = true → le b c = true → le a c = true)
    (htot : ∀ a b, (le a b || le b a) = true)
    (l : List α) (d : α) (hd : (l.mergeSort le).head? = some d) :
    d ∈ l ∧ ∀ x ∈ l, le d x = true := by
  have hsorted := List.sorted_mergeSort htrans htot l
  have hperm := List.mergeSort_perm l le
  cases hms : l.mergeSort le with
  | nil =>
    rw [hms] at hd
    simp at hd
  | cons d0 rest =>
    rw [hms] at hd hsorted hperm
    simp only [List.head?_cons, Option.some.injEq] at hd
    subst hd
    constructor
    · exact hperm.subset (List.mem_cons_self d0 rest)
    · intro x hx
      have hx2 : x ∈ d0 :: rest := (hperm.mem_iff).mpr hx
      rcases List.mem_cons.mp hx2 with rfl | hx3
      · have := htot x x
        simpa using this
      · exact (List.pairwise_cons.mp hsorted).1 x hx3

theorem mergeSort_ne_nil {α : Type} (le : α → α → Bool) (l : List α)
    (hne : l ≠ []) : l.mergeSort le ≠ [] := by
  intro hnil
  have hperm := List.mergeSort_perm l le
  rw [hnil] at hperm
  exact hne hperm.symm.eq_nil

theorem idLe_trans (d1 d2 d3 : Door) (h12 : (decide (d1.id ≤ d2.id)) = true)
    (h23 : (decide (d2.id ≤ d3.id)) = true) : (decide (d1.id ≤ d3.id)) = true := by
  simp only [decide_eq_true_eq] at h12 h23 ⊢
  exact le_trans h12 h23

theorem idLe_total (d1 d2 : Door) :
    (decide (d1.id ≤ d2.id) || decide (d2.id ≤ d1.id)) = true := by
  rcases le_total d1.id d2.id with h | h <;> simp [h]

theorem find_entry_door_some_eq (H : Host) (a : AreaM) (doors : List Door) :
    find_entry_door_in_area H (some a) doors =
      (if (entry_matches_in_area H a doors).isEmpty = true then
        match _area_centroid H a with
        | some centroid =>
          if (entry_candidates doors).isEmpty = true then none
          else ((entry_candidates doors).mergeSort (doorKeyLe centroid)).head?
        | none => none
      else ((entry_matches_in_area H a doors).mergeSort
        (fun d1 d2 => d1.id ≤ d2.id)).head?) := rfl

/-- C5: `find_entry_door_in_area` returns `none` for a missing area; when a
name-matching door has a sample point inside the area it returns such a
door; otherwise it falls back to a name-matching door whose location-point
key is minimal w.r.t. the distance to the area centroid, and returns
`none` when there is no centroid or no name-matching candidate. -/
theorem C5_find_entry_door (H : Host) (a : AreaM) (doors : List Door) :
    find_entry_door_in_area H none doors = none ∧
    ((entry_matches_in_area H a doors).isEmpty = false →
      ∃ d, find_entry_door_in_area H (some a) doors = some d ∧ d ∈ doors ∧
        _door_name_matches d = true ∧
        (_door_points_for_check H d).any a.containsPt = true) ∧
    ((entry_matches_in_area H a doors).isEmpty = true →
      _area_centroid H a = none →
      find_entry_door_in_area H (some a) doors = none) ∧
    (∀ centroid, (entry_matches_in_area H a doors).isEmpty = true →
      _area_centroid H a = some centroid →
      (entry_candidates doors).isEmpty = true →
      find_entry_door_in_area H (some a) doors = none) ∧
    (∀ centroid, (entry_matches_in_area H a doors).isEmpty = true →
      _area_centroid H a = some centroid →
      (entry_candidates doors).isEmpty = false →
      ∃ d, find_entry_door_in_area H (some a) doors = some d ∧
        d ∈ doors ∧ _door_name_matches d = true ∧
        ∀ d2 ∈ entry_candidates doors, doorKeyLe centroid d d2 = true) := by
  refine ⟨rfl, ?_, ?_, ?_, ?_⟩
  · intro hM
    have heq : find_entry_door_in_area H (some a) doors =
        ((entry_matches_in_area H a doors).mergeSort
          (fun d1 d2 => d1.id ≤ d2.id)).head? := by
      rw [find_entry_door_some_eq]
      rw [if_neg (by rw [hM]; exact Bool.false_ne_true)]
    have hne : entry_matches_in_area H a doors ≠ [] := by
      intro h0
      rw [h0] at hM
      simp at hM
    have hmsne := mergeSort_ne_nil (fun d1 d2 => decide (d1.id ≤ d2.id)) _ hne
    cases hms : (entry_matches_in_area H a doors).mergeSort
        (fun d1 d2 => decide (d1.id ≤ d2.id)) with
    | nil => exact absurd hms hmsne
    | cons d0 rest =>
      have hd : ((entry_matches_in_area H a doors).mergeSort
          (fun d1 d2 => decide (d1.id ≤ d2.id))).head? = some d0 := by
        rw [hms]
        rfl
      have hpair := mergeSort_head_min (fun d1 d2 => decide (d1.id ≤ d2.id))
        idLe_trans idLe_total (entry_matches_in_area H a doors) d0 hd
      have hmem2 := List.mem_filter.mp hpair.1
      have hpred := hmem2.2
      rw [Bool.and_eq_true] at hpred
      exact ⟨d0, by rw [heq]; exact hd, hmem2.1, hpred.1, hpred.2⟩
  · intro hM hcen
    rw [find_entry_door_some_eq, if_pos hM, hcen]
  · intro centroid hM hcen hcand
    rw [find_entry_door_some_eq, if_pos hM, hcen]
    show (if (entry_candidates doors).isEmpty = true then none
      else ((entry_candidates doors).mergeSort (doorKeyLe centroid)).head?) = none
    rw [if_pos hcand]
  · intro centroid hM hcen hcand
    have heq : find_entry_door_in_area H (some a) doors =
        ((entry_candidates doors).mergeSort (doorKeyLe centroid)).head? := by
      rw [find_entry_door_some_eq, if_pos hM, hcen]
      show (if (entry_candidates doors).isEmpty = true then none
        else ((entry_candidates doors).mergeSort (doorKeyLe centroid)).head?) =
          ((entry_candidates doors).mergeSort (doorKeyLe centroid)).head?
      rw [if_neg (by rw [hcand]; exact Bool.false_ne_true)]
    have hne : entry_candidates doors ≠ [] := by
      intro h0
      rw [h0] at hcand
      simp at hcand
    have hmsne := mergeSort_ne_nil (doorKeyLe centroid) _ hne
    cases hms : (entry_candidates doors).mergeSort (doorKeyLe centroid) with
    | nil => exact absurd hms hmsne
    | cons d0 rest =>
      have hd : ((entry_candidates doors).mergeSort (doorKeyLe centroid)).head? =
          some d0 := by
        rw [hms]
        rfl
      have hpair := mergeSort_head_min (doorKeyLe centroid)
        (doorKeyLe_trans centroid) (doorKeyLe_total centroid)
        (entry_candidates doors) d0 hd
      have hmem2 := List.mem_filter.mp hpair.1
      exact ⟨d0, by rw [heq]; exact hd, hmem2.1, hmem2.2, hpair.2⟩

/-- Witness for C5: no sample point lies inside `squareArea`, its centroid
exists, and the fallback returns an entry door with minimal centroid
distance key. -/
theorem C5_find_entry_door_witness :
    ((entry_matches_in_area trivialHost squareArea [entryDoorA, entryDoorB]).isEmpty = true ∧
      _area_centroid trivialHost squareArea = some ⟨2, 2, 0⟩ ∧
      (entry_candidates [entryDoorA, entryDoorB]).isEmpty = false) ∧
    ∃ d, find_entry_door_in_area trivialHost (some squareArea) [entryDoorA, entryDoorB] =
        some d ∧
      d ∈ [entryDoorA, entryDoorB] ∧ _door_name_matches d = true ∧
      ∀ d2 ∈ entry_candidates [entryDoorA, entryDoorB],
        doorKeyLe ⟨2, 2, 0⟩ d d2 = true := by
  have hM : (entry_matches_in_area trivialHost squareArea
      [entryDoorA, entryDoorB]).isEmpty = true := by
    simp [entry_matches_in_area, squareArea]
  have hcen : _area_centroid trivialHost squareArea = some ⟨2, 2, 0⟩ := by
    norm_num [_area_centroid, get_outer_boundary_loop, bestLoopScan, appendChainOk,
      trivialHost, squareArea, _centroid_from_loop, collectPts, dedupAppend, closePts,
      shoelaceSum, cxSum, cySum, cross2, distSq, tolSq, degenerateAreaTol,
      curve_loop_area_xy]
  have hcand : (entry_candidates [entryDoorA, entryDoorB]).isEmpty = false := by decide
  exact ⟨⟨hM, hcen, hcand⟩,
    (C5_find_entry_door trivialHost squareArea [entryDoorA, entryDoorB]).2.2.2.2
      ⟨2, 2, 0⟩ hM hcen hcand⟩
